import Mathlib

/-!
Verification of the k9s live-table filter pipeline and port-forward (tunnel)
lifecycle, as implemented in `internal/ui/table.go`, the `internal/ui` filter
helpers, and `internal/view/pf_extender.go`.

The Go code is shallowly embedded: each Go function below is translated
definition-for-definition.  External collaborators that are not part of this
repository (the Go `regexp` engine, the `sahilm/fuzzy` matcher, the DAO/port
forwarding providers, the tview drawing surface) appear either as explicit
function parameters or as small models whose doc comments say what they stand
for.
-/

namespace K9s

/-- Embeds `render.HeaderColumn` (field set as used by `internal/ui/table.go`
and visible in `internal/render/chart.go`: `Name`, `Align`, `Decorator`,
`Wide`, `MX`, `Time`). Alignment is the tview align code; `Decorator` is the
optional per-column decoration hook. -/
structure HeaderColumn where
  Name : String
  Align : Nat := 0
  Decorator : Option (String → String) := none
  Wide : Bool := false
  MX : Bool := false
  Time : Bool := false

/-- tview's `AlignLeft` constant (value 0), compared against `h[c].Align` in
`Table.buildRow`. -/
def alignLeft : Nat := 0

/-- Embeds `render.Row`: a unique id plus the ordered field values. -/
structure Row where
  ID : String
  Fields : List String
deriving DecidableEq, Repr

/-- Embeds `render.RowEvent`: a row plus the optional per-field previous
values (`DeltaRow`). -/
structure RowEvent where
  Row : Row
  Deltas : List String := []
deriving DecidableEq, Repr

instance : Inhabited Row := ⟨⟨"", []⟩⟩

instance : Inhabited RowEvent := ⟨⟨⟨"", []⟩, []⟩⟩

/-- Embeds `render.TableData`: header, row events and namespace scope. -/
@[ext]
structure TableData where
  Header : List HeaderColumn
  RowEvents : List RowEvent
  Namespace : String

/-- Scan of `render.Header.IndexOf` at running index `i` (see
`headerIndexOf`). -/
def headerIndexOfGo (name : String) (includeWide : Bool) : List HeaderColumn → Nat → Int
  | [], _ => -1
  | c :: rest, i =>
    if c.Wide && !includeWide then headerIndexOfGo name includeWide rest (i + 1)
    else if c.Name = name then Int.ofNat i
    else headerIndexOfGo name includeWide rest (i + 1)

/-- Modelled from the spec: `render.Header.IndexOf(name, includeWide)` is not
under `src/` (only its callers are).  Per the spec's data model, column names
identify columns in a header; the lookup returns the index of the first
column with the given name, skipping wide columns when `includeWide` is
false, and `-1` when no such column exists (the Go function returns `int`). -/
def headerIndexOf (h : List HeaderColumn) (name : String) (includeWide : Bool) : Int :=
  headerIndexOfGo name includeWide h 0

/-- Embeds `filterToast` (`internal/ui` helpers): keep rows whose `VALID`
column value is non-empty; identity when the header has no `VALID` column.
Go indexes `re.Row.Fields[validX]`; rows are well-formed per the snapshot
invariant, and the embedding reads the field with `getD` (default `""`). -/
def filterToast (data : TableData) : TableData :=
  if headerIndexOf data.Header "VALID" true = -1 then data
  else
    { Header := data.Header
      RowEvents := data.RowEvents.filter fun re =>
        re.Row.Fields.getD (headerIndexOf data.Header "VALID" true).toNat "" ≠ ""
      Namespace := data.Namespace }

/-- `strings.Join(re.Row.Fields, " ")` as used by `rxFilter`. -/
def joinFields (fields : List String) : String :=
  String.intercalate " " fields

/-- Embeds `rxFilter` (`internal/ui` helpers).  The Go `regexp` package is
external to this repository, so compilation and matching are parameters:
`compile` stands for `regexp.Compile` (`none` = compile error) and `rxMatch`
for `(*regexp.Regexp).MatchString`.  Mirroring Go's
`(render.TableData, error)` return, the second component is `some ()` when
compilation failed (in which case the input data is returned unchanged). -/
def rxFilter {Rx : Type} (compile : String → Option Rx) (rxMatch : Rx → String → Bool)
    (q : String) (data : TableData) : TableData × Option Unit :=
  match compile ("(?i)" ++ q) with
  | none => (data, some ())
  | some rx =>
    ({ Header := data.Header
       RowEvents := data.RowEvents.filter fun re => rxMatch rx (joinFields re.Row.Fields)
       Namespace := data.Namespace }, none)

/-- Embeds `IsLabelSelector`: non-empty and matching the anchored regex
`\A-l`, i.e. the query starts with `-l`. -/
def isLabelSelector (s : String) : Bool :=
  if s = "" then false else ['-', 'l'].isPrefixOf s.toList

/-- Embeds `IsFuzzySelector`: non-empty and matching the anchored regex
`\A-f`, i.e. the query starts with `-f`. -/
def isFuzzySelector (s : String) : Bool :=
  if s = "" then false else ['-', 'f'].isPrefixOf s.toList

/-- Go's byte slice `q[2:]`, identical to dropping two characters for the
ASCII prefixes `-l`/`-f` it is applied after. -/
def stringFrom2 (s : String) : String :=
  String.mk (s.toList.drop 2)

/-- Lower-cased character sequence of a string, for the case-insensitive
fuzzy match. -/
def lowerChars (s : String) : List Char :=
  s.toList.map Char.toLower

/-- Modelled from the spec: the subsequence test of the external
`sahilm/fuzzy` matcher (not part of this repository).  Per the spec, the
fuzzy result set is "the subsequence-matching rows": every pattern character
must occur in the candidate, in order (case folded by the caller). -/
def isSubseq : List Char → List Char → Bool
  | [], _ => true
  | _ :: _, [] => false
  | c :: cs, d :: ds => if c = d then isSubseq cs ds else isSubseq (c :: cs) ds

/-- Modelled from the spec: the match score of the external `sahilm/fuzzy`
matcher.  The spec fixes no scoring function ("ordered by match score, best
first"), so the model uses a simple deterministic score of the pattern and
candidate alone: a match whose first pattern character occurs earlier in the
candidate scores higher (first position scoring a bonus). -/
def matchScore (pat cand : List Char) : Int :=
  match pat with
  | [] => 0
  | c :: _ =>
    match cand.indexOf? c with
    | some i => 10 - Int.ofNat i
    | none => 0

/-- One entry of the fuzzy matcher's result: the candidate's index in the
input list and its score (mirrors `fuzzy.Match.Index`/`Score`). -/
structure FuzzyMatch where
  index : Nat
  score : Int
deriving DecidableEq, Repr

/-- The per-candidate step of the fuzzy matcher: candidate `p.2` at index
`p.1` yields a match with its score when the (lower-cased) pattern is a
subsequence of it. -/
def fuzzyStep (pat : List Char) (p : Nat × String) : Option FuzzyMatch :=
  if isSubseq pat (lowerChars p.2) then some ⟨p.1, matchScore pat (lowerChars p.2)⟩
  else none

/-- Ranking of fuzzy matches: strictly higher score first, ties broken by the
original index (the spec's "ordered by match score (best first), ties broken
by original order"). -/
def fmLE (a b : FuzzyMatch) : Prop :=
  b.score < a.score ∨ (a.score = b.score ∧ a.index ≤ b.index)

instance : DecidableRel fmLE := fun a b => by unfold fmLE; exact inferInstance

instance : IsTotal FuzzyMatch fmLE := by
  constructor
  intro a b
  rcases lt_trichotomy a.score b.score with h | h | h
  · exact Or.inr (Or.inl h)
  · rcases Nat.le_total a.index b.index with hi | hi
    · exact Or.inl (Or.inr ⟨h, hi⟩)
    · exact Or.inr (Or.inr ⟨h.symm, hi⟩)
  · exact Or.inl (Or.inl h)

instance : IsTrans FuzzyMatch fmLE := by
  constructor
  rintro a b c (hab | ⟨hab, hab'⟩) (hbc | ⟨hbc, hbc'⟩)
  · exact Or.inl (hbc.trans hab)
  · exact Or.inl (hbc ▸ hab)
  · exact Or.inl (hab ▸ hbc)
  · exact Or.inr ⟨hab.trans hbc, hab'.trans hbc'⟩

/-- Modelled from the spec: `fuzzy.Find` of the external `sahilm/fuzzy`
library (not part of this repository).  Per the spec it returns the
subsequence-matching entries of `ss` (matched case-insensitively), each
carrying its index into `ss` and a match score, ordered by score best first
with ties in original order. -/
def fuzzyFind (q : String) (ss : List String) : List FuzzyMatch :=
  List.insertionSort fmLE (ss.enum.filterMap (fuzzyStep (lowerChars q)))

/-- Embeds `fuzzyFilter` (`internal/ui` helpers): collect the `index`-th field
of every row (the designated name column; Go reads `re.Row.Fields[index]`,
read here with `getD` under the snapshot well-formedness invariant), run the
fuzzy matcher, and emit the matched rows in the matcher's order
(`data.RowEvents[m.Index]`, embedded with `get?`/`filterMap`; the matcher
only produces in-range indices). -/
def fuzzyFilter (q : String) (index : Nat) (data : TableData) : TableData :=
  let ss := data.RowEvents.map fun re => re.Row.Fields.getD index ""
  let mm := fuzzyFind q ss
  { Header := data.Header
    RowEvents := mm.filterMap fun m => data.RowEvents.get? m.index
    Namespace := data.Namespace }

/-- The filter-relevant state of `ui.Table`: the toast flag, the live command
buffer (`CmdBuff` modelled as its string — `Empty()` is emptiness of the
string and `Clear()` empties it, the behavior its tests pin down), and the
value of `NameColIndex()` (a function of namespace scope, carried as state
here). -/
structure FilterState where
  toast : Bool
  buff : String
  nameColIndex : Nat

/-- Embeds `Table.filtered` (table.go 350-371).  Returns the derived view
together with the command buffer after the call: on a regex compile error the
code logs and calls `t.cmdBuff.Clear()` and returns `rxFilter`'s first result
(which is its input).  `q[2:]` (a byte slice in Go) is `String.drop 2`,
identical for the ASCII prefix `-f`. -/
def tableFiltered {Rx : Type} (compile : String → Option Rx) (rxMatch : Rx → String → Bool)
    (st : FilterState) (data : TableData) : TableData × String :=
  let filtered := if st.toast then filterToast data else data
  if st.buff = "" || isLabelSelector st.buff then (filtered, st.buff)
  else
    let q := st.buff
    if isFuzzySelector q then (fuzzyFilter (stringFrom2 q) st.nameColIndex filtered, st.buff)
    else
      match rxFilter compile rxMatch st.buff filtered with
      | (d, some _) => (d, "")
      | (d, none) => (d, st.buff)

/-- Embeds `ui.SortColumn`: requested sort column name and direction. -/
structure SortColumn where
  name : String
  asc : Bool

/-- Embeds the sort-column fallback step of `Table.doUpdate` (table.go
206-208): when the requested name is empty or not found by
`custData.Header.IndexOf(t.sortCol.name, false)` and the customized header is
non-empty, the first customized column's name is substituted. -/
def doUpdateSortName (sc : SortColumn) (custHeader : List HeaderColumn) : SortColumn :=
  match custHeader with
  | [] => sc
  | c0 :: _ =>
    if sc.name = "" || headerIndexOf custHeader sc.name false = -1 then
      { sc with name := c0.Name }
    else sc

/-- Modelled from the spec: `dao.PortForwardID(path, co)` is not under
`src/`; per the spec a tunnel's identity is the composite key
`(resourcePath, containerName)`, rendered here as one string key as the Go
registry does. -/
def portForwardID (path co : String) : String :=
  path ++ "|" ++ co

/-- The tunnel-relevant application state seen by `runForward`: the
`watch.Factory` forwarder registry (modelled from the spec as the set of
registered identity keys — `AddForwarder`/`DeleteForwarder`/`ForwarderFor`
are not under `src/`), the `active` flag of the forwarder at hand (mutated
only via `pf.SetActive`), and the flash messages emitted, oldest first. -/
structure FwdState where
  registry : List String
  pfActive : Bool
  flashes : List String
deriving DecidableEq, Repr

/-- `watch.Factory.AddForwarder`: Go map assignment, so the key is present
afterwards (at most one entry per identity). -/
def addForwarder (reg : List String) (k : String) : List String :=
  if reg.contains k then reg else reg ++ [k]

/-- `watch.Factory.DeleteForwarder`: Go map delete, key absent afterwards. -/
def deleteForwarder (reg : List String) (k : String) : List String :=
  reg.filter (fun x => x ≠ k)

/-- Embeds `runForward` (pf_extender.go 83-101) for the forwarder with
identity key `fqnKey`.  `fwdResult` is the value returned by the blocking
external `f.ForwardPorts()` call (`some e` = error, `none` = clean close).
The steps, in source order: register the forwarder, queue the "activated"
flash, set the active flag, run; on error flash the error and return
(nothing else happens); on clean return queue deletion of the registry entry
and clearing of the active flag. -/
def runForward (s : FwdState) (fqnKey : String) (fwdResult : Option String) : FwdState :=
  let s1 : FwdState := { s with registry := addForwarder s.registry fqnKey }
  let s2 : FwdState := { s1 with flashes := s1.flashes ++ ["PortForward activated"] }
  let s3 : FwdState := { s2 with pfActive := true }
  match fwdResult with
  | some e => { s3 with flashes := s3.flashes ++ [e] }
  | none =>
    { s3 with registry := deleteForwarder s3.registry fqnKey, pfActive := false }

/-- How a `startFwdCB` invocation ends: either a flash error with no task
spawned, or the `go runForward` task is spawned. -/
inductive StartOutcome where
  | flashErr (e : String)
  | spawned
deriving DecidableEq, Repr

/-- Embeds `startFwdCB` (pf_extender.go 103-124).  `probeErr` is the result
of `tryListenPort` (the external `net.Listen` bind probe; `some e` = port
unavailable) and `startResult` that of the external `pf.Start`.  Returns the
registry as left by the call (the function itself never mutates it — entries
are only added inside the spawned `runForward`) together with the outcome. -/
def startFwdCB (registry : List String) (path co : String)
    (probeErr : Option String) (startResult : Except String Unit) :
    List String × StartOutcome :=
  match probeErr with
  | some e => (registry, .flashErr e)
  | none =>
    if registry.contains (portForwardID path co) then
      (registry, .flashErr "A port-forward is already active on this pod")
    else
      match startResult with
      | .error e => (registry, .flashErr e)
      | .ok _ => (registry, .spawned)

/-- Result of `dao.AccessorFor` plus the `dao.Controller` type assertion in
`fetchPodName` (the DAO layer is external to `src/`): the accessor lookup can
fail, the accessor can fail the controller cast, or it is a controller whose
`Pod` method maps the selected path to a pod name or an error. -/
inductive AccessorRes where
  | lookupErr (e : String)
  | notController
  | controller (pod : String → Except String String)

/-- Embeds `PortForwardExtender.fetchPodName` (pf_extender.go 59-70): when
`dao.AccessorFor` fails the code returns `"", nil` — the lookup error is
discarded; a failed controller cast is an error; otherwise `ctrl.Pod(path)`
is returned. -/
def fetchPodName (acc : AccessorRes) (gvr path : String) : Except String String :=
  match acc with
  | .lookupErr _ => .ok ""
  | .notController => .error ("expecting a controller resource for " ++ gvr)
  | .controller pod => pod path

/-- How `portFwdCmd` ends: no selection (returns the event), a flashed error,
or `showFwdDialog` invoked with the fetched pod path. -/
inductive FwdCmdOutcome where
  | noSelection
  | flashedError (e : String)
  | dialogOpened (pod : String)
deriving DecidableEq, Repr

/-- Embeds `PortForwardExtender.portFwdCmd` (pf_extender.go 41-57): empty
selection returns the event; a `fetchPodName` error is flashed; otherwise
`showFwdDialog` is invoked with the fetched pod path. -/
def portFwdCmd (selected : String) (acc : AccessorRes) (gvr : String) : FwdCmdOutcome :=
  if selected = "" then .noSelection
  else
    match fetchPodName acc gvr selected with
    | .error e => .flashedError e
    | .ok pod => .dialogOpened pod

/-- Modelled from the spec: `render.DeltaRow.IsBlank` (not under `src/`) —
a delta row is blank when it records no previous values. -/
def deltasBlank (ds : List String) : Bool :=
  ds.all (fun d => d = "")

/-- Modelled from the spec: `render.Header.IsAgeCol c` (not under `src/`) —
whether column `c` is a time-like column (per the spec's header descriptor
`isTimeColumn`; deltas are suppressed for such columns). -/
def isAgeCol (h : List HeaderColumn) (c : Nat) : Bool :=
  match h.get? c with
  | some hc => hc.Time
  | none => false

/-- One rendered display cell: text after decoration/delta/padding, the
alignment, the text color and the row-id back-reference carried by the first
built column. -/
structure Cell where
  text : String
  align : Nat
  color : Nat
  ref : Option String
deriving DecidableEq, Repr

/-- Table state and external helpers read by `Table.buildRow`: cluster scope
and metrics flags, the colorer (`render.ColorerFunc`, per-kind, external),
mark / error colors from the styles, `ui.Deltas` and `formatCell` (string
helpers outside `src/`), the model namespace, and the stored `t.header`
(line 274 colors against the original header, not the customized one).
Colors are opaque numeric codes. -/
structure RenderCtx where
  clusterWide : Bool
  hasMetrics : Bool
  colorFn : String → List HeaderColumn → RowEvent → Nat
  markColor : Nat
  errColor : Nat
  deltaFn : String → String → String
  padFn : String → Nat → String
  ns : String
  tblHeader : List HeaderColumn

/-- The decorator application of `Table.buildRow` (table.go 264-266):
identity when the column has none. -/
def decorate (hc : HeaderColumn) (f : String) : String :=
  match hc.Decorator with
  | some dec => dec f
  | none => f

/-- The field-text pipeline of `Table.buildRow` (table.go 260-269) for field
index `c`: append the delta annotation when the row carries deltas and the
column is not a time column (Go indexes `re.Deltas[c]`; `none` marks the
panic on an out-of-range index), apply the column decorator, and pad
left-aligned columns to `pads[c]` (again `none` for the panic spot). -/
def renderField (ctx : RenderCtx) (deltas : List String) (h : List HeaderColumn) (c : Nat)
    (hc : HeaderColumn) (field : String) (pads : List Nat) : Option String :=
  match (if !deltasBlank deltas && !isAgeCol h c then
          match deltas.get? c with
          | none => none
          | some d => some (field ++ ctx.deltaFn d field)
        else some field) with
  | none => none
  | some f1 =>
    if hc.Align = alignLeft then
      match pads.get? c with
      | none => none
      | some p => some (ctx.padFn (decorate hc f1) p)
    else some (decorate hc f1)

/-- The cell construction of `Table.buildRow` (table.go 271-281): colorer
output, overridden by the mark color unless it is the error color; the first
emitted column (`col = 0`) carries the row-id reference. -/
def mkRowCell (ctx : RenderCtx) (rid : String) (marked : Bool) (ore : RowEvent) (col : Nat)
    (hc : HeaderColumn) (f3 : String) : Cell :=
  ⟨f3, hc.Align,
    if marked && ctx.colorFn ctx.ns ctx.tblHeader ore ≠ ctx.errColor then ctx.markColor
    else ctx.colorFn ctx.ns ctx.tblHeader ore,
    if col = 0 then some rid else none⟩

/-- The field loop of `Table.buildRow` (table.go 247-284), one field at a
time: `c` is the field index, `col` the next output column.  A field at or
beyond the header length is logged and skipped (`continue`); namespace and
metrics columns can be skipped; otherwise the field text is rendered
(`renderField`) and the cell emitted (`mkRowCell`).  The value `none` marks a
spot where the Go code would panic on an out-of-range index. -/
def buildRowAux (ctx : RenderCtx) (deltas : List String) (rid : String) (marked : Bool)
    (ore : RowEvent) (h : List HeaderColumn) (pads : List Nat) :
    Nat → Nat → List String → Option (List Cell)
  | _, _, [] => some []
  | c, col, field :: rest =>
    if hlt : c < h.length then
      if (h.get ⟨c, hlt⟩).Name = "NAMESPACE" && !ctx.clusterWide then
        buildRowAux ctx deltas rid marked ore h pads (c + 1) col rest
      else if (h.get ⟨c, hlt⟩).MX && !ctx.hasMetrics then
        buildRowAux ctx deltas rid marked ore h pads (c + 1) col rest
      else
        match renderField ctx deltas h c (h.get ⟨c, hlt⟩) field pads with
        | none => none
        | some f3 =>
          (buildRowAux ctx deltas rid marked ore h pads (c + 1) (col + 1) rest).map
            (fun cs => mkRowCell ctx rid marked ore col (h.get ⟨c, hlt⟩) f3 :: cs)
    else
      buildRowAux ctx deltas rid marked ore h pads (c + 1) col rest

/-- Embeds `Table.buildRow` (table.go 239-285) with mark set `marks`
(`t.IsMarked(re.Row.ID)` is membership).  Returns `none` where the Go code
would panic on an out-of-range index. -/
def buildRow (ctx : RenderCtx) (marks : List String) (re ore : RowEvent)
    (h : List HeaderColumn) (pads : List Nat) : Option (List Cell) :=
  buildRowAux ctx re.Deltas re.Row.ID (marks.contains re.Row.ID) ore h pads 0 0 re.Row.Fields

/-- A concrete stand-in for the external regex engine, for evaluating the
parametric theorems at an input: a "compiled" pattern is the pattern string
itself, and compilation fails exactly when the pattern body after the
four-character `(?i)` marker holds an unclosed `(` (as the spec's `zz(`
scenario does). -/
def exCompile (s : String) : Option String :=
  if (s.toList.drop 4).contains '(' then none else some s

/-- Matching for `exCompile`-compiled patterns: the pattern body after the
`(?i)` marker must lead the subject. -/
def exMatch (rx s : String) : Bool :=
  (rx.toList.drop 4).isPrefixOf s.toList

/-- A concrete three-row snapshot (names `alpha`, `beta`, `gamma`) used to
evaluate the theorems at an input. -/
def exData : TableData :=
  { Header := [⟨"NAME", 0, none, false, false, false⟩, ⟨"AGE", 0, none, false, false, true⟩]
    RowEvents := [⟨⟨"a", ["alpha", "5m"]⟩, []⟩, ⟨⟨"b", ["beta", "1m"]⟩, []⟩,
      ⟨⟨"c", ["gamma", "2m"]⟩, []⟩]
    Namespace := "ns1" }

/-- A concrete snapshot with a (wide) `VALID` column, second row flagged. -/
def exToastData : TableData :=
  { Header := [⟨"NAME", 0, none, false, false, false⟩, ⟨"VALID", 0, none, true, false, false⟩]
    RowEvents := [⟨⟨"a", ["alpha", ""]⟩, []⟩, ⟨⟨"b", ["beta", "boom"]⟩, []⟩]
    Namespace := "ns1" }

/-- A concrete render context used to evaluate the render theorems. -/
def exCtx : RenderCtx :=
  { clusterWide := true
    hasMetrics := true
    colorFn := fun _ _ _ => 1
    markColor := 2
    errColor := 3
    deltaFn := fun d _ => " was " ++ d
    padFn := fun s _ => s
    ns := "ns1"
    tblHeader := [] }

theorem contains_addForwarder (reg : List String) (k : String) :
    (addForwarder reg k).contains k = true := by
  unfold addForwarder
  split
  · assumption
  · simp

theorem contains_deleteForwarder (reg : List String) (k : String) :
    (deleteForwarder reg k).contains k = false := by
  unfold deleteForwarder
  simp [List.mem_filter]

/-- C10: when the accessor lookup for the view's kind fails, `fetchPodName`
returns an empty pod name together with a nil error — the lookup error is
discarded — so `portFwdCmd` proceeds to open the port-forward dialog for the
empty pod path instead of reporting the failure. -/
theorem fetchPodName_discards_lookup_error (e gvr path : String) (hpath : path ≠ "") :
    fetchPodName (AccessorRes.lookupErr e) gvr path = Except.ok ""
      ∧ portFwdCmd path (AccessorRes.lookupErr e) gvr = FwdCmdOutcome.dialogOpened "" := by
  refine ⟨rfl, ?_⟩
  simp [portFwdCmd, fetchPodName, hpath]

/-- Witness for `fetchPodName_discards_lookup_error` at a concrete path. -/
theorem fetchPodName_discards_lookup_error_witness :
    ("fred/p1" ≠ "")
      ∧ portFwdCmd "fred/p1" (AccessorRes.lookupErr "boom") "apps/v1/deployments"
          = FwdCmdOutcome.dialogOpened "" :=
  ⟨by decide,
    (fetchPodName_discards_lookup_error "boom" "apps/v1/deployments" "fred/p1" (by decide)).2⟩

/-- C1 counterexample: a forwarding call that returns an error.  Starting
from an empty registry, `runForward` for identity `fred/p1|c1` whose
`ForwardPorts` call returns the error `connection reset` leaves the registry
still containing that identity and the active flag still set — the entry is
not removed and the flag not cleared, contrary to the claim. -/
theorem runForward_error_keeps_entry :
    (runForward ⟨[], false, []⟩ "fred/p1|c1" (some "connection reset")).registry.contains
        "fred/p1|c1" = true
      ∧ (runForward ⟨[], false, []⟩ "fred/p1|c1" (some "connection reset")).pfActive = true := by
  exact ⟨rfl, rfl⟩

/-- C1 amended: when the forwarding call returns cleanly the registry entry
is removed and the active flag cleared; when it returns an error, the error
is flashed and the entry remains registered with the active flag still set. -/
theorem runForward_lifecycle (s : FwdState) (k e : String) :
    ((runForward s k none).registry.contains k = false
      ∧ (runForward s k none).pfActive = false)
    ∧ ((runForward s k (some e)).registry.contains k = true
      ∧ (runForward s k (some e)).pfActive = true
      ∧ (runForward s k (some e)).flashes = s.flashes ++ ["PortForward activated", e]) := by
  refine ⟨⟨?_, rfl⟩, ?_, rfl, ?_⟩
  · simpa [runForward] using contains_deleteForwarder (addForwarder s.registry k) k
  · simpa [runForward] using contains_addForwarder s.registry k
  · simp [runForward]

/-- C9 counterexample: a start request for identity `fred/p1|c1` that is
already registered but whose local-port probe fails is rejected with the
probe error, not with the "already active" error the claim promises for
every duplicate request (the registry is not consulted before the probe). -/
theorem startFwdCB_duplicate_probe_cex :
    startFwdCB ["fred/p1|c1"] "fred/p1" "c1" (some "port unavailable") (Except.ok ())
        = (["fred/p1|c1"], StartOutcome.flashErr "port unavailable")
      ∧ StartOutcome.flashErr "port unavailable"
          ≠ StartOutcome.flashErr "A port-forward is already active on this pod" := by
  exact ⟨rfl, by decide⟩

/-- C9 amended: a duplicate start request whose local-port probe succeeds is
rejected with the "already active" error; and every duplicate start request,
whatever its probe outcome, leaves the registry unchanged and spawns no
background task. -/
theorem startFwdCB_duplicate_rejected (reg : List String) (path co : String)
    (startRes : Except String Unit)
    (hmem : reg.contains (portForwardID path co) = true) :
    startFwdCB reg path co none startRes
        = (reg, StartOutcome.flashErr "A port-forward is already active on this pod")
      ∧ ∀ probeErr, (startFwdCB reg path co probeErr startRes).1 = reg
          ∧ (startFwdCB reg path co probeErr startRes).2 ≠ StartOutcome.spawned := by
  have hmem' : portForwardID path co ∈ reg := by simpa using hmem
  constructor
  · simp [startFwdCB, hmem']
  · intro probeErr
    cases probeErr with
    | some pe => exact ⟨rfl, by simp [startFwdCB]⟩
    | none => simp [startFwdCB, hmem']

/-- Witness for `startFwdCB_duplicate_rejected` at a concrete registry. -/
theorem startFwdCB_duplicate_rejected_witness :
    (["fred/p1|c1"] : List String).contains (portForwardID "fred/p1" "c1") = true
      ∧ startFwdCB ["fred/p1|c1"] "fred/p1" "c1" none (Except.ok ())
          = (["fred/p1|c1"], StartOutcome.flashErr "A port-forward is already active on this pod") :=
  ⟨rfl, (startFwdCB_duplicate_rejected ["fred/p1|c1"] "fred/p1" "c1" (Except.ok ()) rfl).1⟩

theorem headerIndexOfGo_absent (name : String) (w : Bool) :
    ∀ (l : List HeaderColumn) (i : Nat), (∀ hc ∈ l, hc.Name ≠ name) →
      headerIndexOfGo name w l i = -1 := by
  intro l
  induction l with
  | nil => intro i _; rfl
  | cons c rest ih =>
    intro i habs
    have hcn : ¬c.Name = name := habs c (by simp)
    have hrest : ∀ hc ∈ rest, hc.Name ≠ name := fun x hx => habs x (by simp [hx])
    unfold headerIndexOfGo
    by_cases hw : (c.Wide && !w) = true
    · rw [if_pos hw]
      exact ih _ hrest
    · rw [if_neg hw, if_neg hcn]
      exact ih _ hrest

/-- C7: when the requested sort column name is empty or absent from the
non-empty customized header, `Table.doUpdate` substitutes the first
customized (visible) column as the sort column before sorting. -/
theorem doUpdateSortName_fallback (sc : SortColumn) (c0 : HeaderColumn)
    (rest : List HeaderColumn)
    (habs : sc.name = "" ∨ ∀ hc ∈ c0 :: rest, hc.Name ≠ sc.name) :
    doUpdateSortName sc (c0 :: rest) = { sc with name := c0.Name } := by
  rcases habs with hemp | habs
  · simp [doUpdateSortName, hemp]
  · have hidx : headerIndexOf (c0 :: rest) sc.name false = -1 :=
      headerIndexOfGo_absent sc.name false _ 0 habs
    simp [doUpdateSortName, hidx]

/-- Witness for `doUpdateSortName_fallback` at a concrete header. -/
theorem doUpdateSortName_fallback_witness :
    (∀ hc ∈ [HeaderColumn.mk "NAME" 0 none false false false], hc.Name ≠ "BOGUS")
      ∧ doUpdateSortName ⟨"BOGUS", true⟩ [HeaderColumn.mk "NAME" 0 none false false false]
          = ⟨"NAME", true⟩ :=
  ⟨by decide,
    doUpdateSortName_fallback ⟨"BOGUS", true⟩ (HeaderColumn.mk "NAME" 0 none false false false)
      [] (Or.inr (by decide))⟩

theorem headerIndexOfGo_neg_iff (name : String) :
    ∀ (l : List HeaderColumn) (i : Nat),
      (headerIndexOfGo name true l i = -1 ↔ ∀ hc ∈ l, hc.Name ≠ name) := by
  intro l
  induction l with
  | nil => intro i; simp [headerIndexOfGo]
  | cons c rest ih =>
    intro i
    unfold headerIndexOfGo
    simp only [Bool.not_true, Bool.and_false, Bool.false_eq_true, if_false]
    by_cases hcn : c.Name = name
    · rw [if_pos hcn]
      constructor
      · intro hcon
        rw [Int.ofNat_eq_coe] at hcon
        omega
      · intro habs; exact absurd hcn (habs c (by simp))
    · rw [if_neg hcn]
      rw [ih (i + 1)]
      constructor
      · intro h x hx
        rcases List.mem_cons.mp hx with rfl | hx'
        · exact hcn
        · exact h x hx'
      · intro h x hx; exact h x (by simp [hx])

/-- C5: the toast filter keeps exactly the rows whose value in the `VALID`
column is non-empty when the header contains such a column (the `-1`
sentinel of the lookup coincides with absence), and is the identity on the
snapshot when it does not. -/
theorem filterToast_ok (d : TableData) :
    (headerIndexOf d.Header "VALID" true = -1 ↔ ∀ hc ∈ d.Header, hc.Name ≠ "VALID")
      ∧ (headerIndexOf d.Header "VALID" true = -1 → filterToast d = d)
      ∧ (∀ i : Nat, headerIndexOf d.Header "VALID" true = Int.ofNat i →
          (filterToast d).Header = d.Header ∧ (filterToast d).Namespace = d.Namespace
            ∧ (filterToast d).RowEvents
                = d.RowEvents.filter fun re => re.Row.Fields.getD i "" ≠ "") := by
  refine ⟨headerIndexOfGo_neg_iff "VALID" d.Header 0, ?_, ?_⟩
  · intro hneg
    unfold filterToast
    rw [if_pos hneg]
  · intro i hi
    unfold filterToast
    rw [hi]
    have hne : ¬(Int.ofNat i = -1) := by
      rw [Int.ofNat_eq_coe]
      omega
    rw [if_neg hne]
    exact ⟨rfl, rfl, by simp⟩

/-- Witness for `filterToast_ok` at a concrete snapshot with a `VALID`
column: only the flagged row survives. -/
theorem filterToast_ok_witness :
    headerIndexOf exToastData.Header "VALID" true = Int.ofNat 1
      ∧ (filterToast exToastData).RowEvents
          = exToastData.RowEvents.filter fun re => re.Row.Fields.getD 1 "" ≠ "" :=
  ⟨rfl, ((filterToast_ok exToastData).2.2 1 rfl).2.2⟩

/-- C2: on a query that the regex engine fails to compile (and that is not
routed to the label or fuzzy path), `rxFilter` returns an error together with
its input view, and `Table.filtered` returns the pre-query view of the
snapshot (the snapshot itself, under the toast filter when that flag is set)
with the command buffer cleared. -/
theorem rxFilter_invalid_query {Rx : Type} (compile : String → Option Rx)
    (rxMatch : Rx → String → Bool) (st : FilterState) (data : TableData)
    (hne : st.buff ≠ "") (hlab : isLabelSelector st.buff = false)
    (hfuz : isFuzzySelector st.buff = false)
    (hc : compile ("(?i)" ++ st.buff) = none) :
    rxFilter compile rxMatch st.buff (if st.toast then filterToast data else data)
        = ((if st.toast then filterToast data else data), some ())
      ∧ tableFiltered compile rxMatch st data
        = ((if st.toast then filterToast data else data), "") := by
  have h1 : rxFilter compile rxMatch st.buff (if st.toast then filterToast data else data)
      = ((if st.toast then filterToast data else data), some ()) := by
    unfold rxFilter
    rw [hc]
  refine ⟨h1, ?_⟩
  unfold tableFiltered
  simp only [hne, hlab, hfuz, h1, decide_eq_true_eq, if_neg, Bool.or_false, decide_not]
  simp [hne]

/-- Witness for `rxFilter_invalid_query`: the spec's `zz(` scenario. -/
theorem rxFilter_invalid_query_witness :
    exCompile ("(?i)" ++ "zz(") = none
      ∧ tableFiltered exCompile exMatch ⟨false, "zz(", 0⟩ exData = (exData, "") :=
  ⟨by decide,
    (rxFilter_invalid_query exCompile exMatch ⟨false, "zz(", 0⟩ exData (by decide) (by decide)
      (by decide) (by decide)).2⟩

/-- C3: on a query the regex engine compiles (case-insensitively, via the
`(?i)` prefix), `rxFilter` returns no error and keeps exactly the rows whose
space-joined field values match; the output rows are a sublist (subset in
the original order) of the input rows. -/
theorem rxFilter_valid_query {Rx : Type} (compile : String → Option Rx)
    (rxMatch : Rx → String → Bool) (q : String) (rx : Rx) (data : TableData)
    (hc : compile ("(?i)" ++ q) = some rx) :
    (rxFilter compile rxMatch q data).2 = none
      ∧ (∀ re, re ∈ (rxFilter compile rxMatch q data).1.RowEvents ↔
          re ∈ data.RowEvents ∧ rxMatch rx (joinFields re.Row.Fields) = true)
      ∧ (rxFilter compile rxMatch q data).1.RowEvents.Sublist data.RowEvents := by
  unfold rxFilter
  rw [hc]
  refine ⟨rfl, ?_, ?_⟩
  · intro re
    simp [List.mem_filter]
  · exact List.filter_sublist data.RowEvents

/-- Witness for `rxFilter_valid_query` at the concrete engine and query
`al`: the filtered rows are a sublist of the input rows. -/
theorem rxFilter_valid_query_witness :
    exCompile ("(?i)" ++ "al") = some "(?i)al"
      ∧ (rxFilter exCompile exMatch "al" exData).1.RowEvents.Sublist exData.RowEvents :=
  ⟨by decide, (rxFilter_valid_query exCompile exMatch "al" "(?i)al" exData (by decide)).2.2⟩

theorem buildRowAux_out_of_range (ctx : RenderCtx) (deltas : List String) (rid : String)
    (marked : Bool) (ore : RowEvent) (h : List HeaderColumn) (pads : List Nat) :
    ∀ (fields : List String) (c col : Nat), h.length ≤ c →
      buildRowAux ctx deltas rid marked ore h pads c col fields = some [] := by
  intro fields
  induction fields with
  | nil => intro c col _; rfl
  | cons f rest ih =>
    intro c col hc
    unfold buildRowAux
    rw [dif_neg (by omega)]
    exact ih (c + 1) col (by omega)

theorem buildRowAux_take (ctx : RenderCtx) (deltas : List String) (rid : String)
    (marked : Bool) (ore : RowEvent) (h : List HeaderColumn) (pads : List Nat) :
    ∀ (fields : List String) (c col : Nat), c ≤ h.length →
      buildRowAux ctx deltas rid marked ore h pads c col fields
        = buildRowAux ctx deltas rid marked ore h pads c col
            (fields.take (h.length - c)) := by
  intro fields
  induction fields with
  | nil => intro c col _; rw [List.take_nil]
  | cons f rest ih =>
    intro c col hc
    rcases Nat.lt_or_ge c h.length with hlt | hge
    · have hsub : h.length - c = (h.length - (c + 1)) + 1 := by omega
      rw [hsub, List.take_succ_cons]
      unfold buildRowAux
      rw [dif_pos hlt, dif_pos hlt]
      have hc1 : c + 1 ≤ h.length := by omega
      by_cases h1 : ((h.get ⟨c, hlt⟩).Name = "NAMESPACE" && !ctx.clusterWide) = true
      · rw [if_pos h1, if_pos h1]
        exact ih (c + 1) col hc1
      · rw [if_neg h1, if_neg h1]
        by_cases h2 : ((h.get ⟨c, hlt⟩).MX && !ctx.hasMetrics) = true
        · rw [if_pos h2, if_pos h2]
          exact ih (c + 1) col hc1
        · rw [if_neg h2, if_neg h2]
          cases hrf : renderField ctx deltas h c (h.get ⟨c, hlt⟩) f pads with
          | none => rfl
          | some f3 => rw [ih (c + 1) (col + 1) hc1]
    · have hceq : h.length - c = 0 := by omega
      rw [hceq, List.take_zero]
      rw [buildRowAux_out_of_range ctx deltas rid marked ore h pads (f :: rest) c col hge]
      rfl

theorem renderField_isSome (ctx : RenderCtx) (deltas : List String) (h : List HeaderColumn)
    (c : Nat) (hc : HeaderColumn) (field : String) (pads : List Nat)
    (hblank : deltasBlank deltas = true) (hcp : c < pads.length) :
    (renderField ctx deltas h c hc field pads).isSome = true := by
  unfold renderField
  rw [hblank]
  simp only [Bool.not_true, Bool.false_and, Bool.false_eq_true, if_false]
  by_cases ha : hc.Align = alignLeft
  · rw [if_pos ha, List.get?_eq_get hcp]
    rfl
  · rw [if_neg ha]
    rfl

theorem buildRowAux_isSome (ctx : RenderCtx) (deltas : List String) (rid : String)
    (marked : Bool) (ore : RowEvent) (h : List HeaderColumn) (pads : List Nat)
    (hblank : deltasBlank deltas = true) (hpads : pads.length = h.length) :
    ∀ (fields : List String) (c col : Nat),
      (buildRowAux ctx deltas rid marked ore h pads c col fields).isSome = true := by
  intro fields
  induction fields with
  | nil => intro c col; rfl
  | cons f rest ih =>
    intro c col
    unfold buildRowAux
    by_cases hlt : c < h.length
    · rw [dif_pos hlt]
      by_cases h1 : ((h.get ⟨c, hlt⟩).Name = "NAMESPACE" && !ctx.clusterWide) = true
      · rw [if_pos h1]
        exact ih _ _
      · rw [if_neg h1]
        by_cases h2 : ((h.get ⟨c, hlt⟩).MX && !ctx.hasMetrics) = true
        · rw [if_pos h2]
          exact ih _ _
        · rw [if_neg h2]
          have hrf := renderField_isSome ctx deltas h c (h.get ⟨c, hlt⟩) f pads hblank
            (by omega)
          obtain ⟨f3, hf3⟩ := Option.isSome_iff_exists.mp hrf
          rw [hf3]
          rw [Option.isSome_map']
          exact ih _ _
    · rw [dif_neg hlt]
      exact ih _ _

/-- C8: a row with more fields than header columns renders exactly as the
row truncated to the header length — every excess field is skipped, the
in-range fields still render, and the whole row is never discarded; in
particular (with well-formed deltas and pads) building the row succeeds
(never panics). -/
theorem buildRow_skips_excess_fields (ctx : RenderCtx) (marks : List String)
    (re ore : RowEvent) (h : List HeaderColumn) (pads : List Nat)
    (hlong : h.length < re.Row.Fields.length) :
    buildRow ctx marks re ore h pads
        = buildRow ctx marks
            { re with Row := { re.Row with Fields := re.Row.Fields.take h.length } } ore h pads
      ∧ (deltasBlank re.Deltas = true → pads.length = h.length →
          (buildRow ctx marks re ore h pads).isSome = true) := by
  constructor
  · have := buildRowAux_take ctx re.Deltas re.Row.ID (marks.contains re.Row.ID) ore h pads
      re.Row.Fields 0 0 (Nat.zero_le _)
    rw [Nat.sub_zero] at this
    exact this
  · intro hblank hpads
    exact buildRowAux_isSome ctx re.Deltas re.Row.ID (marks.contains re.Row.ID) ore h pads
      hblank hpads re.Row.Fields 0 0

theorem filterMap_eq_map_of_some {α β : Type} (f : α → Option β) (g : α → β) :
    ∀ l : List α, (∀ a ∈ l, f a = some (g a)) → l.filterMap f = l.map g := by
  intro l
  induction l with
  | nil => intro _; rfl
  | cons a rest ih =>
    intro hall
    rw [List.filterMap_cons, hall a (by simp), List.map_cons,
      ih fun x hx => hall x (by simp [hx])]

theorem fuzzyFind_mem {q : String} {ss : List String} {m : FuzzyMatch}
    (hm : m ∈ fuzzyFind q ss) :
    ∃ s, ss.get? m.index = some s
      ∧ isSubseq (lowerChars q) (lowerChars s) = true
      ∧ m.score = matchScore (lowerChars q) (lowerChars s) := by
  unfold fuzzyFind at hm
  rw [List.mem_insertionSort] at hm
  obtain ⟨p, hp, hstep⟩ := List.mem_filterMap.mp hm
  unfold fuzzyStep at hstep
  by_cases hsub : isSubseq (lowerChars q) (lowerChars p.2) = true
  · rw [if_pos hsub] at hstep
    obtain rfl := Option.some_injective _ hstep
    refine ⟨p.2, ?_, hsub, rfl⟩
    simpa using List.mem_enum_iff_get?.mp hp
  · rw [if_neg hsub] at hstep
    cases hstep

theorem fuzzyFind_sorted (q : String) (ss : List String) :
    List.Sorted fmLE (fuzzyFind q ss) :=
  List.sorted_insertionSort fmLE _

theorem fuzzyFind_complete {q : String} {ss : List String} {n : Nat} {s : String}
    (hs : ss.get? n = some s) (hsub : isSubseq (lowerChars q) (lowerChars s) = true) :
    FuzzyMatch.mk n (matchScore (lowerChars q) (lowerChars s)) ∈ fuzzyFind q ss := by
  unfold fuzzyFind
  rw [List.mem_insertionSort]
  refine List.mem_filterMap.mpr ⟨(n, s), ?_, ?_⟩
  · exact List.mem_enum_iff_get?.mpr (by simpa using hs)
  · unfold fuzzyStep
    dsimp only
    rw [if_pos hsub]

theorem getD_map_name (l : List RowEvent) (i : Nat) :
    ∀ n : Nat, (l.map fun re => re.Row.Fields.getD i "").getD n ""
      = (l.getD n default).Row.Fields.getD i "" := by
  induction l with
  | nil => intro n; rfl
  | cons re rest ih =>
    intro n
    cases n with
    | zero => rfl
    | succ k => exact ih k

theorem fuzzyFilter_rowEvents (q : String) (i : Nat) (d : TableData) :
    (fuzzyFilter q i d).RowEvents
      = (fuzzyFind q (d.RowEvents.map fun re => re.Row.Fields.getD i "")).map
          fun m => d.RowEvents.getD m.index default := by
  unfold fuzzyFilter
  refine filterMap_eq_map_of_some _ _ _ ?_
  intro m hm
  obtain ⟨s, hs, _, _⟩ := fuzzyFind_mem hm
  have hlt : m.index < d.RowEvents.length := by
    have hx := (List.get?_eq_some.mp hs).1
    simpa using hx
  rw [List.getD_eq_get?, List.get?_eq_get hlt]
  rfl

theorem filterMap_step_enumFrom (pat : List Char) (g : FuzzyMatch → String) :
    ∀ (l : List FuzzyMatch) (n : Nat),
      (∀ m ∈ l, isSubseq pat (lowerChars (g m)) = true
        ∧ matchScore pat (lowerChars (g m)) = m.score) →
      ((l.map g).enumFrom n).filterMap (fuzzyStep pat)
        = (l.enumFrom n).map fun p => FuzzyMatch.mk p.1 p.2.score := by
  intro l
  induction l with
  | nil => intro n _; rfl
  | cons m rest ih =>
    intro n hall
    obtain ⟨hsub, hscore⟩ := hall m (by simp)
    rw [List.map_cons, List.enumFrom_cons, List.filterMap_cons, List.enumFrom_cons,
      List.map_cons]
    have hstep : fuzzyStep pat (n, g m) = some ⟨n, m.score⟩ := by
      unfold fuzzyStep
      dsimp only
      rw [if_pos hsub, hscore]
    rw [hstep, ih (n + 1) fun x hx => hall x (by simp [hx])]

theorem sorted_enumFrom_scores :
    ∀ (l : List FuzzyMatch) (n : Nat), l.Pairwise fmLE →
      List.Sorted fmLE ((l.enumFrom n).map fun p => FuzzyMatch.mk p.1 p.2.score) := by
  intro l
  induction l with
  | nil => intro n _; exact List.sorted_nil
  | cons m rest ih =>
    intro n hp
    rw [List.pairwise_cons] at hp
    rw [List.enumFrom_cons, List.map_cons]
    refine List.sorted_cons.mpr ⟨?_, ih (n + 1) hp.2⟩
    intro b hb
    obtain ⟨p, hpmem, rfl⟩ := List.mem_map.mp hb
    obtain ⟨j, m'⟩ := p
    have hj := List.mk_mem_enumFrom_iff_le_and_get?_sub.mp hpmem
    have hm' : m' ∈ rest := List.get?_mem (by simpa using hj.2)
    rcases hp.1 m' hm' with hlt | ⟨heq, _⟩
    · exact Or.inl hlt
    · exact Or.inr ⟨heq, show n ≤ j by have := hj.1; omega⟩

theorem filterMap_get?_range' {β : Type} :
    ∀ (t : List β) (pre : List β),
      (List.range' pre.length t.length).filterMap (fun n => (pre ++ t).get? n) = t := by
  intro t
  induction t with
  | nil => intro pre; rfl
  | cons b rest ih =>
    intro pre
    rw [List.length_cons, List.range'_succ, List.filterMap_cons]
    have hb : (pre ++ b :: rest).get? pre.length = some b := by
      rw [List.get?_append_right (Nat.le_refl _)]
      simp
    simp only [hb]
    have h2 := ih (pre ++ [b])
    rw [List.append_assoc] at h2
    simp only [List.length_append, List.length_singleton, List.singleton_append] at h2
    rw [h2]

theorem getD_eq_of_get? {α : Type} {l : List α} {n : Nat} {a : α} (dflt : α)
    (h : l.get? n = some a) : l.getD n dflt = a := by
  rw [List.getD_eq_get?, h]
  rfl

theorem fuzzyFind_map_self (q : String) (l : List FuzzyMatch) (g : FuzzyMatch → String)
    (hall : ∀ m ∈ l, isSubseq (lowerChars q) (lowerChars (g m)) = true
      ∧ matchScore (lowerChars q) (lowerChars (g m)) = m.score)
    (hsorted : List.Sorted fmLE l) :
    fuzzyFind q (l.map g) = l.enum.map fun p => FuzzyMatch.mk p.1 p.2.score := by
  unfold fuzzyFind
  rw [List.enum_eq_enumFrom, List.enum_eq_enumFrom]
  rw [filterMap_step_enumFrom (lowerChars q) g l 0 hall]
  exact List.Sorted.insertionSort_eq (sorted_enumFrom_scores l 0 hsorted)

theorem rxFilter_idem {Rx : Type} (compile : String → Option Rx)
    (rxMatch : Rx → String → Bool) (q : String) (data : TableData) :
    (rxFilter compile rxMatch q (rxFilter compile rxMatch q data).1).1
      = (rxFilter compile rxMatch q data).1 := by
  unfold rxFilter
  cases hc : compile ("(?i)" ++ q) with
  | none => rfl
  | some rx => simp [List.filter_filter]

theorem filterToast_idem (d : TableData) :
    filterToast (filterToast d) = filterToast d := by
  by_cases hneg : headerIndexOf d.Header "VALID" true = -1
  · unfold filterToast
    rw [if_pos hneg, if_pos hneg]
  · unfold filterToast
    rw [if_neg hneg]
    dsimp only
    rw [if_neg hneg]
    simp [List.filter_filter]

theorem fuzzyFilter_idem (q : String) (i : Nat) (d : TableData) :
    fuzzyFilter q i (fuzzyFilter q i d) = fuzzyFilter q i d := by
  have hrows := fuzzyFilter_rowEvents q i d
  have hall : ∀ m ∈ fuzzyFind q (d.RowEvents.map fun re => re.Row.Fields.getD i ""),
      isSubseq (lowerChars q)
          (lowerChars ((d.RowEvents.map fun re => re.Row.Fields.getD i "").getD m.index ""))
            = true
        ∧ matchScore (lowerChars q)
            (lowerChars ((d.RowEvents.map fun re => re.Row.Fields.getD i "").getD m.index ""))
              = m.score := by
    intro m hm
    obtain ⟨s, hs, hsub, hscore⟩ := fuzzyFind_mem hm
    rw [getD_eq_of_get? "" hs]
    exact ⟨hsub, hscore.symm⟩
  have hnames : (fuzzyFilter q i d).RowEvents.map (fun re => re.Row.Fields.getD i "")
      = (fuzzyFind q (d.RowEvents.map fun re => re.Row.Fields.getD i "")).map
          fun m => (d.RowEvents.map fun re => re.Row.Fields.getD i "").getD m.index "" := by
    rw [hrows, List.map_map]
    have hfun : ((fun re : RowEvent => re.Row.Fields.getD i "")
          ∘ fun m : FuzzyMatch => d.RowEvents.getD m.index default)
        = fun m : FuzzyMatch =>
            (d.RowEvents.map fun re => re.Row.Fields.getD i "").getD m.index "" := by
      funext m
      exact (getD_map_name d.RowEvents i m.index).symm
    rw [hfun]
  have hfind : fuzzyFind q ((fuzzyFilter q i d).RowEvents.map fun re => re.Row.Fields.getD i "")
      = (fuzzyFind q (d.RowEvents.map fun re => re.Row.Fields.getD i "")).enum.map
          fun p => FuzzyMatch.mk p.1 p.2.score := by
    rw [hnames]
    exact fuzzyFind_map_self q _ _ hall
      (fuzzyFind_sorted q (d.RowEvents.map fun re => re.Row.Fields.getD i ""))
  have hlen : (fuzzyFilter q i d).RowEvents.length
      = (fuzzyFind q (d.RowEvents.map fun re => re.Row.Fields.getD i "")).length := by
    rw [hrows, List.length_map]
  apply TableData.ext
  · rfl
  · show (fuzzyFind q ((fuzzyFilter q i d).RowEvents.map fun re =>
        re.Row.Fields.getD i "")).filterMap
          (fun m => (fuzzyFilter q i d).RowEvents.get? m.index)
        = (fuzzyFilter q i d).RowEvents
    rw [hfind, List.filterMap_map]
    have hcomp : ((fun m : FuzzyMatch => (fuzzyFilter q i d).RowEvents.get? m.index)
          ∘ fun p : Nat × FuzzyMatch => FuzzyMatch.mk p.1 p.2.score)
        = (fun n : Nat => (fuzzyFilter q i d).RowEvents.get? n) ∘ Prod.fst := rfl
    rw [hcomp, ← List.filterMap_map, List.enum_eq_enumFrom, List.enumFrom_map_fst, ← hlen]
    have hr := filterMap_get?_range' (fuzzyFilter q i d).RowEvents []
    rw [List.nil_append, List.length_nil] at hr
    exact hr
  · rfl

/-- C6: the three filters are idempotent: re-running the regex filter with
the same query on its own output returns that output (whether or not the
query compiles), re-running the fuzzy filter likewise, and re-applying the
toast filter likewise. -/
theorem filters_idempotent :
    (∀ (Rx : Type) (compile : String → Option Rx) (rxMatch : Rx → String → Bool)
        (q : String) (data : TableData),
        (rxFilter compile rxMatch q (rxFilter compile rxMatch q data).1).1
          = (rxFilter compile rxMatch q data).1)
      ∧ (∀ (q : String) (i : Nat) (data : TableData),
          fuzzyFilter q i (fuzzyFilter q i data) = fuzzyFilter q i data)
      ∧ ∀ data : TableData, filterToast (filterToast data) = filterToast data :=
  ⟨fun _ compile rxMatch q data => rxFilter_idem compile rxMatch q data,
    fun q i data => fuzzyFilter_idem q i data,
    fun data => filterToast_idem data⟩

/-- C4 counterexample: the spec's scenario.  The query `-f a` against the
snapshot whose name column holds `alpha`, `beta`, `gamma` returns no rows at
all, not only the row named `alpha`: the code passes the untrimmed remainder
`q[2:]` (here `" a"`, with its leading space) to the matcher, and `" a"` is
not a subsequence of any of the three names. -/
theorem fuzzyFilter_scenario_cex :
    (tableFiltered exCompile exMatch ⟨false, "-f a", 0⟩ exData).1.RowEvents = []
      ∧ (tableFiltered exCompile exMatch ⟨false, "-f a", 0⟩ exData).1.RowEvents
          ≠ [RowEvent.mk (Row.mk "a" ["alpha", "5m"]) []] := by
  exact ⟨by decide, by decide⟩

/-- C4 amended: the fuzzy filter matches the query against the designated
name column only, and its result is exactly the subsequence-matching rows —
every returned row is a row of the input whose name-column value contains the
(lower-cased) query as a subsequence, and every input row whose name-column
value matches is returned — ordered by match score, best first; but the
scenario query `-f a` (whose untrimmed remainder `" a"` keeps its leading
space) returns no rows against the names `alpha`, `beta`, `gamma`, rather
than only `alpha`. -/
theorem fuzzyFilter_amended (q : String) (i : Nat) (data : TableData) :
    (∀ re ∈ (fuzzyFilter q i data).RowEvents, re ∈ data.RowEvents)
      ∧ (∀ re ∈ (fuzzyFilter q i data).RowEvents,
          isSubseq (lowerChars q) (lowerChars (re.Row.Fields.getD i "")) = true)
      ∧ (∀ (re : RowEvent) (n : Nat), data.RowEvents.get? n = some re →
          isSubseq (lowerChars q) (lowerChars (re.Row.Fields.getD i "")) = true →
          re ∈ (fuzzyFilter q i data).RowEvents)
      ∧ (fuzzyFilter q i data).RowEvents.Pairwise
          (fun a b => matchScore (lowerChars q) (lowerChars (b.Row.Fields.getD i ""))
            ≤ matchScore (lowerChars q) (lowerChars (a.Row.Fields.getD i "")))
      ∧ (tableFiltered exCompile exMatch ⟨false, "-f a", 0⟩ exData).1.RowEvents = [] := by
  refine ⟨?_, ?_, ?_, ?_, by decide⟩
  · intro re hre
    obtain ⟨m, _, hget⟩ := List.mem_filterMap.mp hre
    exact List.get?_mem hget
  · intro re hre
    obtain ⟨m, hm, hget⟩ := List.mem_filterMap.mp hre
    obtain ⟨s, hs, hsub, _⟩ := fuzzyFind_mem hm
    rw [List.get?_map, hget] at hs
    obtain rfl := Option.some_injective _ hs
    exact hsub
  · intro re n hget hsub
    have hnames : (data.RowEvents.map fun re => re.Row.Fields.getD i "").get? n
        = some (re.Row.Fields.getD i "") := by
      rw [List.get?_map, hget]
      rfl
    have hm := fuzzyFind_complete hnames hsub
    rw [fuzzyFilter_rowEvents]
    refine List.mem_map.mpr ⟨_, hm, ?_⟩
    exact getD_eq_of_get? default hget
  · rw [fuzzyFilter_rowEvents, List.pairwise_map]
    refine List.Pairwise.imp_of_mem ?_ (fuzzyFind_sorted q _)
    intro a b ha hb hab
    obtain ⟨sa, hsa, _, hscorea⟩ := fuzzyFind_mem ha
    obtain ⟨sb, hsb, _, hscoreb⟩ := fuzzyFind_mem hb
    have hra : (data.RowEvents.getD a.index default).Row.Fields.getD i "" = sa := by
      rw [← getD_map_name data.RowEvents i a.index]
      exact getD_eq_of_get? "" hsa
    have hrb : (data.RowEvents.getD b.index default).Row.Fields.getD i "" = sb := by
      rw [← getD_map_name data.RowEvents i b.index]
      exact getD_eq_of_get? "" hsb
    rw [hra, hrb, ← hscorea, ← hscoreb]
    rcases hab with hlt | ⟨heq, _⟩
    · exact le_of_lt hlt
    · exact le_of_eq heq.symm

/-- Witness for `fuzzyFilter_amended`: on the example snapshot with query
`a`, the returned row named `alpha` is one of the snapshot's rows
(soundness), and conversely the snapshot's matching row named `alpha` is
returned (completeness). -/
theorem fuzzyFilter_amended_witness :
    RowEvent.mk (Row.mk "a" ["alpha", "5m"]) [] ∈ exData.RowEvents
      ∧ RowEvent.mk (Row.mk "a" ["alpha", "5m"]) [] ∈ (fuzzyFilter "a" 0 exData).RowEvents :=
  ⟨(fuzzyFilter_amended "a" 0 exData).1 (RowEvent.mk (Row.mk "a" ["alpha", "5m"]) [])
      (by decide),
    (fuzzyFilter_amended "a" 0 exData).2.2.1 (RowEvent.mk (Row.mk "a" ["alpha", "5m"]) []) 0
      (by decide) (by decide)⟩

/-- Witness for `buildRow_skips_excess_fields`: a two-field row against a
one-column header renders as the truncated one-field row. -/
theorem buildRow_skips_excess_fields_witness :
    ([HeaderColumn.mk "NAME" 0 none false false false].length
        < (["alpha", "extra"] : List String).length)
      ∧ buildRow exCtx [] ⟨⟨"a", ["alpha", "extra"]⟩, []⟩ ⟨⟨"a", ["alpha", "extra"]⟩, []⟩
            [HeaderColumn.mk "NAME" 0 none false false false] [0]
          = buildRow exCtx [] ⟨⟨"a", ["alpha"]⟩, []⟩ ⟨⟨"a", ["alpha", "extra"]⟩, []⟩
            [HeaderColumn.mk "NAME" 0 none false false false] [0] :=
  ⟨by decide,
    (buildRow_skips_excess_fields exCtx [] ⟨⟨"a", ["alpha", "extra"]⟩, []⟩
      ⟨⟨"a", ["alpha", "extra"]⟩, []⟩ [HeaderColumn.mk "NAME" 0 none false false false] [0]
      (by decide)).1⟩

end K9s
